import Mathlib

/-!
Verification of the record tracking and synchronization engine of the
Lark-Calendar-Scheduler repository.

The Python sources under `src/` are shallowly embedded below:
pure functions become Lean functions, the SQLite store becomes an explicit
`DB` value threaded through the operations, `CURRENT_TIMESTAMP` becomes an
explicit `now : Int` parameter, and the platform-local timezone that
`datetime.timestamp()` consults for naive datetimes becomes an explicit
`tz : Int` parameter (the local UTC offset in seconds, positive east of
Greenwich).  Fallible Python code (`try`/`except`) is embedded through
`Except` bodies whose handler maps every error to the Python function's
fallback value.
-/

namespace LarkScheduler

/-! ### Python string and number primitives -/

/-- ASCII decimal digit test, as used by `int()` and `strptime` digit groups. -/
def isDigitChar (c : Char) : Bool :=
  '0' ≤ c && c ≤ '9'

/-- Whitespace characters stripped by Python `int(str)` before parsing. -/
def isSpaceChar (c : Char) : Bool :=
  c = ' ' || c = '\t' || c = '\n' || c = '\x0d' || c = '\x0b' || c = '\x0c'

/-- Digit-run parser for Python `int(str)`: a nonempty run of decimal digits in
which single underscores may appear between digits.  `prevDigit` records
whether the previous character was a digit (so an underscore is legal and so
that the run may end). -/
def pyDigitsGo (prevDigit : Bool) (acc : Nat) : List Char → Option Nat
  | [] => if prevDigit then some acc else none
  | c :: cs =>
    if isDigitChar c then pyDigitsGo true (acc * 10 + (c.toNat - 48)) cs
    else if c = '_' then
      if prevDigit then pyDigitsGo false acc cs else none
    else none

/-- Strip leading and trailing whitespace from a character list,
modelling `str.strip()` as performed by Python `int(str)`. -/
def stripSpaces (l : List Char) : List Char :=
  ((l.dropWhile isSpaceChar).reverse.dropWhile isSpaceChar).reverse

/-- Embedding of Python `int(s)` for a string argument: optional surrounding
whitespace, optional sign, then a digit run (with single underscores allowed
between digits).  `none` models a raised `ValueError`. -/
def pyInt (s : String) : Option Int :=
  match stripSpaces s.toList with
  | '-' :: rest => (pyDigitsGo false 0 rest).map (fun n => -(n : Int))
  | '+' :: rest => (pyDigitsGo false 0 rest).map (fun n => (n : Int))
  | rest => (pyDigitsGo false 0 rest).map (fun n => (n : Int))

/-- Split a character list on the `-` separator, as the `%Y-%m-%d` format of
`strptime` does between its three digit groups. -/
def splitDash : List Char → List (List Char)
  | [] => [[]]
  | c :: cs =>
    if c = '-' then [] :: splitDash cs
    else
      match splitDash cs with
      | [] => [[c]]
      | g :: gs => (c :: g) :: gs

/-- Numeric value of a digit run. -/
def digitsToNat (l : List Char) : Nat :=
  l.foldl (fun a c => a * 10 + (c.toNat - 48)) 0

/-- Gregorian leap-year rule used by `datetime`. -/
def isLeapYear (y : Nat) : Bool :=
  y % 4 = 0 && (y % 100 ≠ 0 || y % 400 = 0)

/-- Length of a month, as validated by `datetime.datetime`. -/
def daysInMonth (y m : Nat) : Nat :=
  if m = 2 then (if isLeapYear y then 29 else 28)
  else if m = 4 || m = 6 || m = 9 || m = 11 then 30
  else 31

/-- Embedding of `datetime.datetime.strptime(s, "%Y-%m-%d")`: three
dash-separated digit groups (`%Y` up to four digits, `%m` and `%d` up to two),
validated against the `datetime` calendar ranges (year at least `MINYEAR = 1`,
month `1..12`, day within the month).  `none` models a raised `ValueError`. -/
def strptimeYMD (s : String) : Option (Nat × Nat × Nat) :=
  match splitDash s.toList with
  | [ys, ms, ds] =>
    if ys.length ≥ 1 && ys.length ≤ 4 && ys.all isDigitChar
        && ms.length ≥ 1 && ms.length ≤ 2 && ms.all isDigitChar
        && ds.length ≥ 1 && ds.length ≤ 2 && ds.all isDigitChar then
      let y := digitsToNat ys
      let m := digitsToNat ms
      let d := digitsToNat ds
      if 1 ≤ y && 1 ≤ m && m ≤ 12 && 1 ≤ d && d ≤ daysInMonth y m then
        some (y, m, d)
      else none
    else none
  | _ => none

/-- Days since 1970-01-01 of the civil date `y-m-d` (valid for `y ≥ 1`,
`1 ≤ m ≤ 12`, `d` within the month), the standard era-based conversion that
`datetime.timestamp()` performs arithmetically. -/
def daysFromCivil (y m d : Nat) : Int :=
  let ys := if m ≤ 2 then y - 1 else y
  let era := ys / 400
  let yoe := ys % 400
  let mp := (m + 9) % 12
  let doy := (153 * mp + 2) / 5 + d - 1
  let doe := yoe * 365 + yoe / 4 - yoe / 100 + doy
  (era * 146097 + doe : Int) - 719468

/-! ### Time dictionaries and timestamp extraction

`start_time` / `end_time` values arrive as JSON dictionaries carrying a
`timestamp` (epoch seconds as a string), or a `date` (`YYYY-MM-DD` string) and
optionally a `timezone`, or neither.  A missing `start_time` key defaults to
the empty dictionary (`all fields none`). -/

structure TimeDict where
  timestamp : Option String
  date : Option String
  timezone : Option String
deriving DecidableEq, Repr

/-- Body of `RecordTracker._extract_timestamp` before its `except` handler:
the code inside the `try` block, where `int()` and `strptime` may raise
(modelled as `Except.error`).  A `date` value is parsed as a naive datetime
and `datetime.timestamp()` interprets it as local midnight, hence the
subtraction of the local UTC offset `tz` (seconds). -/
def extractTimestampBody (tz : Int) (td : TimeDict) : Except String (Option Int) :=
  match td.timestamp with
  | some s =>
    match pyInt s with
    | some n => .ok (some (n * 1000))
    | none => .error "ValueError: invalid literal for int"
  | none =>
    match td.date with
    | some ds =>
      match strptimeYMD ds with
      | some (y, m, d) => .ok (some ((daysFromCivil y m d * 86400 - tz) * 1000))
      | none => .error "ValueError: time data does not match format"
    | none => .ok none

/-- `RecordTracker._extract_timestamp`: the `try` body with a bare `except`
that returns `None` on any raised error. -/
def extractTimestamp (tz : Int) (td : TimeDict) : Option Int :=
  match extractTimestampBody tz td with
  | .ok o => o
  | .error _ => none

/-- Body of `DirectCalendarUploader.parse_timestamp_to_ms` before its
`except` handler.  Identical to `_extract_timestamp` except that the `date`
branch also reads the (unused) `timezone` key with default `"UTC"`. -/
def parseTimestampToMsBody (tz : Int) (td : TimeDict) : Except String (Option Int) :=
  match td.timestamp with
  | some s =>
    match pyInt s with
    | some n => .ok (some (n * 1000))
    | none => .error "ValueError: invalid literal for int"
  | none =>
    match td.date with
    | some ds =>
      let _timezone := td.timezone.getD "UTC"
      match strptimeYMD ds with
      | some (y, m, d) => .ok (some ((daysFromCivil y m d * 86400 - tz) * 1000))
      | none => .error "ValueError: time data does not match format"
    | none => .ok none

/-- `DirectCalendarUploader.parse_timestamp_to_ms`: the `try` body with an
`except` handler that returns `None` on any raised error. -/
def parseTimestampToMs (tz : Int) (td : TimeDict) : Option Int :=
  match parseTimestampToMsBody tz td with
  | .ok o => o
  | .error _ => none

/-! ### Raw events and the content fingerprint -/

/-- A raw calendar event dictionary as read from a calendar JSON file.
Missing keys are `none`; `summary` and `description` default to `""` and
`status` to `""` wherever the code calls `get` with those defaults, while the
missing time dictionaries default to the empty `TimeDict`. -/
structure EventData where
  event_id : Option String
  summary : Option String
  status : Option String
  description : Option String
  start_time : TimeDict
  end_time : TimeDict
deriving DecidableEq, Repr

/-- The canonical content of `RecordTracker._generate_record_hash`: the five
key fields serialized with `json.dumps(..., sort_keys=True)`.  The source then
takes the md5 hexdigest of this serialization; the digest is modelled by the
canonical field tuple itself, since every use of the hash in the repository is
an equality comparison and the digest is a function of exactly this tuple. -/
structure HashVal where
  summary : String
  start_time : TimeDict
  end_time : TimeDict
  status : String
  description : String
deriving DecidableEq, Repr

/-- `RecordTracker._generate_record_hash`. -/
def generateRecordHash (e : EventData) : HashVal :=
  { summary := e.summary.getD ""
    start_time := e.start_time
    end_time := e.end_time
    status := e.status.getD ""
    description := e.description.getD "" }

/-! ### The persistent store -/

/-- One row of the `calendar_records` table. -/
structure TrackedRecord where
  event_id : String
  person_name : String
  summary : String
  start_time : Option Int
  end_time : Option Int
  calendar_file : String
  record_hash : HashVal
  upload_status : String
  upload_time : Option Int
  upload_result : Option String
  created_time : Int
  updated_time : Int
deriving DecidableEq, Repr

/-- One row of the `upload_logs` table. -/
structure UploadLog where
  batch_id : String
  event_id : String
  upload_status : String
  upload_result : Option String
  upload_time : Int
  error_message : Option String
deriving DecidableEq, Repr

/-- The SQLite database: both tables, rows in rowid (insertion) order. -/
structure DB where
  records : List TrackedRecord
  logs : List UploadLog
deriving DecidableEq, Repr

def emptyDB : DB := ⟨[], []⟩

/-- The `UPDATE calendar_records SET ...` row transformation of
`add_or_update_record` when the stored fingerprint differs: overwrite the
mutable fields, force the status back to `pending` and clear
`upload_time`/`upload_result`. -/
def resetRowFromEvent (tz now : Int) (e : EventData) (calendarFile : String)
    (r0 : TrackedRecord) : TrackedRecord :=
  { r0 with
    summary := e.summary.getD ""
    start_time := extractTimestamp tz e.start_time
    end_time := extractTimestamp tz e.end_time
    calendar_file := calendarFile
    record_hash := generateRecordHash e
    upload_status := "pending"
    upload_time := none
    upload_result := none
    updated_time := now }

/-- The `INSERT INTO calendar_records ...` row of `add_or_update_record` for a
first sighting of an `event_id`: status `pending`, timestamps set by the
store. -/
def newRowFromEvent (tz now : Int) (e : EventData) (personName calendarFile i : String) :
    TrackedRecord :=
  { event_id := i
    person_name := personName
    summary := e.summary.getD ""
    start_time := extractTimestamp tz e.start_time
    end_time := extractTimestamp tz e.end_time
    calendar_file := calendarFile
    record_hash := generateRecordHash e
    upload_status := "pending"
    upload_time := none
    upload_result := none
    created_time := now
    updated_time := now }

/-- `RecordTracker.add_or_update_record`.  Returns the updated database and
the boolean result: `false` for a missing/empty `event_id`, for an unchanged
existing record, and (in the source) for store errors; `true` when a row was
inserted or updated.  The `UPDATE ... WHERE event_id = ?` statement affects
every matching row; the `SELECT ... fetchone()` lookup takes the first. -/
def addOrUpdateRecord (tz now : Int) (db : DB) (e : EventData)
    (personName calendarFile : String) : DB × Bool :=
  match e.event_id with
  | none => (db, false)
  | some i =>
    if i = "" then (db, false)
    else
      match db.records.find? (fun r => r.event_id == i) with
      | some r =>
        if r.record_hash = generateRecordHash e then (db, false)
        else
          ({ db with records := db.records.map (fun r0 =>
              if r0.event_id == i then resetRowFromEvent tz now e calendarFile r0 else r0) },
           true)
      | none =>
        ({ db with records := db.records ++ [newRowFromEvent tz now e personName calendarFile i] },
         true)

/-- Ordering used by `ORDER BY created_time ASC`. -/
def ctLE (a b : TrackedRecord) : Prop :=
  a.created_time ≤ b.created_time

instance : DecidableRel ctLE := fun a b => Int.decLe a.created_time b.created_time

instance : IsTotal TrackedRecord ctLE := ⟨fun a b => Int.le_total a.created_time b.created_time⟩

instance : IsTrans TrackedRecord ctLE := ⟨fun _ _ _ => Int.le_trans⟩

/-- Row filter of `RecordTracker.get_pending_records`: status `pending`, and
the `person_name` condition is added only when the argument is truthy (a
non-empty string). -/
def pendingPred (person : Option String) (r : TrackedRecord) : Bool :=
  r.upload_status == "pending" &&
    (match person with
     | some p => if p = "" then true else r.person_name == p
     | none => true)

/-- `RecordTracker.get_pending_records`: `SELECT * FROM calendar_records WHERE
upload_status = 'pending' [AND person_name = ?] ORDER BY created_time ASC
[LIMIT ?]`.  The `LIMIT` clause is added only when `limit` is truthy
(non-`None` and non-zero).  `ORDER BY` is modelled as a stable sort on
`created_time`. -/
def getPendingRecords (db : DB) (person : Option String) (limit : Option Nat) :
    List TrackedRecord :=
  let sorted := List.insertionSort ctLE (db.records.filter (pendingPred person))
  match limit with
  | some n => if n = 0 then sorted else sorted.take n
  | none => sorted

/-- Row transformation of the `UPDATE` in `RecordTracker.mark_as_uploaded`. -/
def setUploaded (uploadResult : String) (now : Int) (r : TrackedRecord) : TrackedRecord :=
  { r with
    upload_status := "uploaded"
    upload_time := some now
    upload_result := some uploadResult
    updated_time := now }

/-- `RecordTracker.mark_as_uploaded`: updates every row matching `event_id`
and reports whether any row matched; with no match the transaction is not
committed and the store is unchanged. -/
def markAsUploaded (db : DB) (eventId uploadResult : String) (now : Int) : DB × Bool :=
  if db.records.any (fun r => r.event_id == eventId) then
    ({ db with records := db.records.map (fun r =>
        if r.event_id == eventId then setUploaded uploadResult now r else r) }, true)
  else (db, false)

/-- Row transformation of the `UPDATE` in `RecordTracker.mark_as_failed`; the
stored result is the error message with the `FAILED: ` prefix. -/
def setFailed (errorMessage : String) (now : Int) (r : TrackedRecord) : TrackedRecord :=
  { r with
    upload_status := "failed"
    upload_time := some now
    upload_result := some ("FAILED: " ++ errorMessage)
    updated_time := now }

/-- `RecordTracker.mark_as_failed`: updates every row matching `event_id`,
commits unconditionally, and reports whether any row matched. -/
def markAsFailed (db : DB) (eventId errorMessage : String) (now : Int) : DB × Bool :=
  ({ db with records := db.records.map (fun r =>
      if r.event_id == eventId then setFailed errorMessage now r else r) },
   db.records.any (fun r => r.event_id == eventId))

/-- One result dictionary passed to `RecordTracker.log_upload_batch`. -/
structure UploadResultEntry where
  event_id : Option String
  status : Option String
  result : Option String
  error : Option String
deriving DecidableEq, Repr

/-- `RecordTracker.log_upload_batch`: inserts one `upload_logs` row per result
dictionary.  The `batch_id`, `event_id` and `upload_status` columns are
`NOT NULL`, so a result missing `event_id` or `status` raises on insert; the
exception handler then returns `false` and the uncommitted transaction is
rolled back, leaving the table unchanged. -/
def logUploadBatch (db : DB) (batchId : String) (results : List UploadResultEntry)
    (now : Int) : DB × Bool :=
  if results.all (fun x => x.event_id.isSome && x.status.isSome) then
    ({ db with logs := db.logs ++ results.map (fun x =>
        { batch_id := batchId
          event_id := x.event_id.getD ""
          upload_status := x.status.getD ""
          upload_result := x.result
          upload_time := now
          error_message := x.error }) }, true)
  else (db, false)

/-- Row transformation of the `UPDATE` in `RecordTracker.reset_failed_records`:
back to `pending` with `upload_time`/`upload_result` cleared. -/
def setPendingCleared (now : Int) (r : TrackedRecord) : TrackedRecord :=
  { r with
    upload_status := "pending"
    upload_time := none
    upload_result := none
    updated_time := now }

/-- `RecordTracker.reset_failed_records`: resets every `failed` row to
`pending` with cleared `upload_time`/`upload_result`, returning the number of
rows the `UPDATE` matched. -/
def resetFailedRecords (db : DB) (now : Int) : DB × Nat :=
  ({ db with records := db.records.map (fun r =>
      if r.upload_status == "failed" then setPendingCleared now r else r) },
   db.records.countP (fun r => r.upload_status == "failed"))

/-! ### The sync orchestrator (`CalendarScheduler`) -/

/-- `SCHEDULE_CONFIG["batch_size"]` from `config.py`. -/
def scheduleConfigBatchSize : Nat := 50

/-- The JSON dictionary returned by the Lark batch-create endpoint, as far as
the scheduler inspects it: the `code` and `msg` keys, each possibly absent. -/
structure LarkDict where
  code : Option Int
  msg : Option String
deriving DecidableEq, Repr

/-- Python truthiness of the response dictionary (a dict is falsy iff empty;
the model carries exactly the two inspected keys). -/
def larkTruthy (d : LarkDict) : Bool :=
  d.code.isSome || d.msg.isSome

/-- The scheduler's success test `result and result.get('code') == 0`:
transport-level success (a truthy response dict) with application code 0. -/
def resultSuccess (result : Option LarkDict) : Bool :=
  match result with
  | none => false
  | some d => larkTruthy d && d.code == some 0

/-- The scheduler's error extraction
`result.get('msg', '未知错误') if result else '网络错误'`. -/
def extractErrorMsg (result : Option LarkDict) : String :=
  match result with
  | none => "网络错误"
  | some d => if larkTruthy d then d.msg.getD "未知错误" else "网络错误"

/-- One record of the transport payload built in
`CalendarScheduler._upload_pending_records`: the `fields` dictionary sent to
the Bitable batch-create call. -/
structure BitableRecord where
  summary : String
  start_time : Option Int
  end_time : Option Int
  person : String
deriving DecidableEq, Repr

/-- Payload construction for one tracked record:
`record["summary"] or ""` and `record["end_time"] or record["start_time"]`
use Python `or`, whose left operand is falsy when it is `None`, `""` or 0. -/
def toUploadRecord (r : TrackedRecord) : BitableRecord :=
  { summary := if r.summary = "" then "" else r.summary
    start_time := r.start_time
    end_time := if r.end_time = none || r.end_time = some 0 then r.start_time else r.end_time
    person := r.person_name }

/-- The inner `for event_id in event_ids: mark_as_uploaded(...)` loop of a
successful chunk. -/
def markAllUploaded (uploadResult : String) (now : Int) : List String → DB → DB
  | [], db => db
  | i :: is, db => markAllUploaded uploadResult now is (markAsUploaded db i uploadResult now).1

/-- The inner `for event_id in event_ids: mark_as_failed(...)` loop of a
failed chunk. -/
def markAllFailed (errorMessage : String) (now : Int) : List String → DB → DB
  | [], db => db
  | i :: is, db => markAllFailed errorMessage now is (markAsFailed db i errorMessage now).1

/-- Fuel-indexed slicing loop: with enough fuel (at least the list length,
for a positive `bs`) it produces the slices `l[i : i + bs]` of the Python
loop `for i in range(0, len(l), bs)`. -/
def chunksOfGo (bs : Nat) : Nat → List TrackedRecord → List (List TrackedRecord)
  | _, [] => []
  | 0, _ => []
  | fuel + 1, l => l.take bs :: chunksOfGo bs fuel (l.drop bs)

/-- The slices `pending_records[i : i + batch_size]` produced by
`for i in range(0, len(pending_records), batch_size)`.  For `bs = 0` the
Python `range` raises; the model returns no chunks (the configured batch size
is 50). -/
def chunksOf (bs : Nat) (l : List TrackedRecord) : List (List TrackedRecord) :=
  if bs = 0 then [] else chunksOfGo bs l.length l

/-- The per-chunk loop body of `CalendarScheduler._upload_pending_records`:
one transport call per chunk (`transport k payload` is the observed outcome of
the `k`-th call of the cycle), then the whole chunk is marked uploaded or
failed.  Returns the database and the `(uploaded_count, failed_count)`
accumulators. -/
def runChunks (transport : Nat → List BitableRecord → Option LarkDict) (now : Int) :
    List (List TrackedRecord) → Nat → DB → DB × Nat × Nat
  | [], _, db => (db, 0, 0)
  | c :: cs, k, db =>
    let payload := c.map toUploadRecord
    let eventIds := c.map (fun r => r.event_id)
    let result := transport k payload
    if resultSuccess result then
      let db1 := markAllUploaded "批量上传成功" now eventIds db
      let rest := runChunks transport now cs (k + 1) db1
      (rest.1, rest.2.1 + eventIds.length, rest.2.2)
    else
      let db1 := markAllFailed (extractErrorMsg result) now eventIds db
      let rest := runChunks transport now cs (k + 1) db1
      (rest.1, rest.2.1, rest.2.2 + eventIds.length)

/-- `CalendarScheduler._upload_pending_records`: select the pending records
(no filter, no limit), return early when there are none, otherwise process the
batch-size chunks in order. -/
def uploadPendingRecords (bs : Nat) (transport : Nat → List BitableRecord → Option LarkDict)
    (now : Int) (db : DB) : DB × Nat × Nat :=
  let pending := getPendingRecords db none none
  if pending.isEmpty then (db, 0, 0)
  else runChunks transport now (chunksOf bs pending) 0 db

/-- The per-file event loop of `CalendarScheduler._load_calendar_records`:
every event whose `status` is not `"cancelled"` is passed to
`add_or_update_record`; the counter counts `true` results. -/
def loadEvents (tz now : Int) (personName filePath : String) :
    List EventData → DB × Nat → DB × Nat
  | [], acc => acc
  | e :: es, acc =>
    if e.status == some "cancelled" then loadEvents tz now personName filePath es acc
    else
      let step := addOrUpdateRecord tz now acc.1 e personName filePath
      loadEvents tz now personName filePath es (step.1, acc.2 + if step.2 then 1 else 0)

/-- `CalendarScheduler._load_calendar_records` over the parsed calendar files:
each file contributes its owner name (derived from the file name), its path
and its event list. -/
def loadCalendarRecords (tz now : Int) (db : DB)
    (files : List (String × String × List EventData)) : DB × Nat :=
  match files with
  | [] => (db, 0)
  | f :: rest =>
    let step := loadEvents tz now f.1 f.2.1 f.2.2 (db, 0)
    let rec2 := loadCalendarRecords tz now step.1 rest
    (rec2.1, step.2 + rec2.2)

/-- Python `str.strip()` over the model's whitespace characters, as applied to
the summary in the fetcher's filter. -/
def pyStrip (s : String) : String :=
  ⟨stripSpaces s.toList⟩

/-- The event filter of `CalendarFetcher.get_calendar_events`, which runs
before the calendar file is written (and hence before any event can reach the
store): drop `cancelled` events, drop events whose stripped summary is empty,
parse the epoch-seconds `timestamp` (default `"0"`) and drop events starting
before `filterStartTs`.  A `ValueError` from `int()` aborts the whole fetch of
the calendar (`none`): no file is written. -/
def filterCalendarEvents (filterStartTs : Int) : List EventData → Option (List EventData)
  | [] => some []
  | e :: es =>
    if e.status == some "cancelled" then filterCalendarEvents filterStartTs es
    else if pyStrip (e.summary.getD "") = "" then filterCalendarEvents filterStartTs es
    else
      match pyInt (e.start_time.timestamp.getD "0") with
      | none => none
      | some ts =>
        if ts < filterStartTs then filterCalendarEvents filterStartTs es
        else (filterCalendarEvents filterStartTs es).map (fun l => e :: l)

/-- The transformation a chunk's outcome applies to one matching row. -/
def applyOutcome (result : Option LarkDict) (now : Int) (r : TrackedRecord) : TrackedRecord :=
  if resultSuccess result then setUploaded "批量上传成功" now r
  else setFailed (extractErrorMsg result) now r

/-- The row-level effect of processing a list of chunks starting at call
index `k`: each chunk applies its outcome to the rows whose `event_id` it
contains. -/
def applyChunks (transport : Nat → List BitableRecord → Option LarkDict) (now : Int) :
    List (List TrackedRecord) → Nat → TrackedRecord → TrackedRecord
  | [], _, r => r
  | c :: cs, k, r =>
    applyChunks transport now cs (k + 1)
      (if (c.map (fun x => x.event_id)).contains r.event_id then
        applyOutcome (transport k (c.map toUploadRecord)) now r
      else r)

/-! ### Concrete fixtures used to instantiate the theorems -/

/-- A pending tracked record with identifier `e<n>` and creation time `n`. -/
def mkRec (n : Nat) : TrackedRecord :=
  { event_id := "e" ++ toString n
    person_name := "p"
    summary := "s"
    start_time := some 1
    end_time := some 2
    calendar_file := "f"
    record_hash := ⟨"s", ⟨none, none, none⟩, ⟨none, none, none⟩, "", ""⟩
    upload_status := "pending"
    upload_time := none
    upload_result := none
    created_time := n
    updated_time := n }

/-- Five pending records. -/
def dbSmall : DB := ⟨(List.range 5).map mkRec, []⟩

/-- 120 pending records, the store of the specification's batch example. -/
def db120 : DB := ⟨(List.range 120).map mkRec, []⟩

/-- A transport whose second call (chunk index 1) fails at the network level
and whose other calls succeed with application code 0. -/
def trFail1 (k : Nat) (_ : List BitableRecord) : Option LarkDict :=
  if k = 1 then none else some ⟨some 0, some "success"⟩

/-- A transport that always succeeds with application code 0. -/
def trOK (_ : Nat) (_ : List BitableRecord) : Option LarkDict :=
  some ⟨some 0, some "success"⟩

/-- A raw event as first ingested. -/
def evA : EventData :=
  { event_id := some "ev1"
    summary := some "Meeting"
    status := some "confirmed"
    description := some ""
    start_time := ⟨some "1700000000", none, none⟩
    end_time := ⟨some "1700003600", none, none⟩ }

/-- The same event re-ingested with a changed summary. -/
def evA2 : EventData := { evA with summary := some "Meeting v2" }

/-- The tracked row for `evA` after a successful upload. -/
def rowA : TrackedRecord :=
  { event_id := "ev1"
    person_name := "alice"
    summary := "Meeting"
    start_time := some 1700000000000
    end_time := some 1700003600000
    calendar_file := "alice.txt"
    record_hash := generateRecordHash evA
    upload_status := "uploaded"
    upload_time := some 50
    upload_result := some "批量上传成功"
    created_time := 10
    updated_time := 50 }

/-- A store holding only the uploaded row for `evA`. -/
def dbA : DB := ⟨[rowA], []⟩

/-- A non-cancelled event whose summary is whitespace only. -/
def evWS : EventData :=
  { event_id := some "ws1"
    summary := some "   "
    status := some "confirmed"
    description := none
    start_time := ⟨some "1700000000", none, none⟩
    end_time := ⟨none, none, none⟩ }

/-- A cancelled event. -/
def evCancelled : EventData :=
  { event_id := some "cx1"
    summary := some "Gone"
    status := some "cancelled"
    description := none
    start_time := ⟨some "1700000000", none, none⟩
    end_time := ⟨none, none, none⟩ }

/-- A well-formed confirmed event that survives the fetcher's filter. -/
def evGood : EventData :=
  { event_id := some "g1"
    summary := some "Standup"
    status := some "confirmed"
    description := none
    start_time := ⟨some "1700000000", none, none⟩
    end_time := ⟨some "1700003600", none, none⟩ }

/-- An event with an empty `event_id`. -/
def evEmptyId : EventData := { evA with event_id := some "" }

/-- An event with no `event_id` key. -/
def evNoId : EventData := { evA with event_id := none }

/-- A store exercising the pending selection: two pending rows of different
owners created out of order, one failed row and one uploaded row. -/
def rowP1 : TrackedRecord := { mkRec 7 with event_id := "p1", person_name := "alice" }

def rowP2 : TrackedRecord := { mkRec 3 with event_id := "p2", person_name := "bob" }

def rowF1 : TrackedRecord :=
  { mkRec 5 with
    event_id := "f1"
    person_name := "alice"
    upload_status := "failed"
    upload_time := some 40
    upload_result := some "FAILED: boom" }

def rowU1 : TrackedRecord :=
  { mkRec 2 with
    event_id := "u1"
    person_name := "bob"
    upload_status := "uploaded"
    upload_time := some 41
    upload_result := some "ok" }

def db6 : DB := ⟨[rowP1, rowP2, rowF1, rowU1], []⟩

/-- A result text used when re-marking the reset row of `db6`. -/
def res6 : String := "retry ok"

/-! ### Supporting lemmas -/

theorem map_if_no_match {α : Type} (p : α → Bool) (f : α → α) (l : List α)
    (h : ∀ x ∈ l, p x = false) :
    l.map (fun x => if p x then f x else x) = l := by
  induction l with
  | nil => rfl
  | cons a t ih =>
    have ha : p a = false := h a (List.mem_cons_self a t)
    simp only [List.map_cons, ha, Bool.false_eq_true, if_false]
    exact congrArg (a :: ·) (ih fun x hx => h x (List.mem_cons_of_mem a hx))

theorem chunksOfGo_flatten (bs : Nat) (hbs : 0 < bs) :
    ∀ fuel l, l.length ≤ fuel → (chunksOfGo bs fuel l).flatten = l := by
  intro fuel
  induction fuel with
  | zero =>
    intro l hl
    rcases l with _ | ⟨x, xs⟩
    · rfl
    · exact absurd hl (by simp)
  | succ n ih =>
    intro l hl
    rcases l with _ | ⟨x, xs⟩
    · rfl
    · show (((x :: xs).take bs) :: chunksOfGo bs n ((x :: xs).drop bs)).flatten = x :: xs
      have hdrop : ((x :: xs).drop bs).length ≤ n := by
        simp only [List.length_drop, List.length_cons]
        simp only [List.length_cons] at hl
        omega
      rw [List.flatten_cons, ih ((x :: xs).drop bs) hdrop, List.take_append_drop]

theorem chunksOf_flatten (bs : Nat) (hbs : 0 < bs) (l : List TrackedRecord) :
    (chunksOf bs l).flatten = l := by
  unfold chunksOf
  rw [if_neg (Nat.pos_iff_ne_zero.mp hbs)]
  exact chunksOfGo_flatten bs hbs l.length l (Nat.le_refl _)

theorem chunksOfGo_mem (bs : Nat) (hbs : 0 < bs) :
    ∀ fuel l c, l.length ≤ fuel → c ∈ chunksOfGo bs fuel l → c ≠ [] ∧ c.length ≤ bs := by
  intro fuel
  induction fuel with
  | zero =>
    intro l c hl hc
    rcases l with _ | ⟨x, xs⟩
    · cases hc
    · exact absurd hl (by simp)
  | succ n ih =>
    intro l c hl hc
    rcases l with _ | ⟨x, xs⟩
    · cases hc
    · have hdrop : ((x :: xs).drop bs).length ≤ n := by
        simp only [List.length_drop, List.length_cons]
        simp only [List.length_cons] at hl
        omega
      rcases hc with _ | hc
      · constructor
        · rcases bs with _ | b
          · omega
          · simp [List.take_cons]
        · exact List.length_take_le bs (x :: xs)
      · exact ih ((x :: xs).drop bs) c hdrop (by assumption)

theorem chunksOf_mem (bs : Nat) (hbs : 0 < bs) (l : List TrackedRecord)
    (c : List TrackedRecord) (hc : c ∈ chunksOf bs l) : c ≠ [] ∧ c.length ≤ bs := by
  unfold chunksOf at hc
  rw [if_neg (Nat.pos_iff_ne_zero.mp hbs)] at hc
  exact chunksOfGo_mem bs hbs l.length l c (Nat.le_refl _) hc

theorem setUploaded_event_id (res : String) (now : Int) (r : TrackedRecord) :
    (setUploaded res now r).event_id = r.event_id := rfl

theorem setFailed_event_id (msg : String) (now : Int) (r : TrackedRecord) :
    (setFailed msg now r).event_id = r.event_id := rfl

theorem setUploaded_idem (res : String) (now : Int) (r : TrackedRecord) :
    setUploaded res now (setUploaded res now r) = setUploaded res now r := rfl

theorem setFailed_idem (msg : String) (now : Int) (r : TrackedRecord) :
    setFailed msg now (setFailed msg now r) = setFailed msg now r := rfl

theorem markAsUploaded_records (db : DB) (i res : String) (now : Int) :
    (markAsUploaded db i res now).1.records
      = db.records.map (fun r => if r.event_id == i then setUploaded res now r else r) := by
  unfold markAsUploaded
  by_cases h : db.records.any (fun r => r.event_id == i)
  · rw [if_pos h]
  · rw [if_neg h]
    refine (map_if_no_match _ _ _ fun x hx => ?_).symm
    rcases hx' : x.event_id == i with _ | _
    · rfl
    · exact absurd (List.any_eq_true.mpr ⟨x, hx, hx'⟩) h

theorem markAsUploaded_logs (db : DB) (i res : String) (now : Int) :
    (markAsUploaded db i res now).1.logs = db.logs := by
  unfold markAsUploaded
  by_cases h : db.records.any (fun r => r.event_id == i) <;> simp [h]

theorem markAsFailed_records (db : DB) (i msg : String) (now : Int) :
    (markAsFailed db i msg now).1.records
      = db.records.map (fun r => if r.event_id == i then setFailed msg now r else r) := rfl

theorem markAllUploaded_records (res : String) (now : Int) (ids : List String) (db : DB) :
    (markAllUploaded res now ids db).records
      = db.records.map (fun r => if ids.contains r.event_id then setUploaded res now r else r) := by
  induction ids generalizing db with
  | nil =>
    show db.records = _
    exact (map_if_no_match (fun r => ([] : List String).contains r.event_id)
      (setUploaded res now) db.records (fun x _ => rfl)).symm
  | cons i is ih =>
    show (markAllUploaded res now is (markAsUploaded db i res now).1).records = _
    rw [ih, markAsUploaded_records, List.map_map]
    refine List.map_congr_left fun r _ => ?_
    simp only [Function.comp_apply, List.contains_cons]
    by_cases h1 : r.event_id == i
    · simp only [h1, if_true, setUploaded_event_id, Bool.true_or]
      by_cases h2 : is.contains r.event_id
      · rw [if_pos h2, setUploaded_idem]
      · rw [if_neg h2]
    · have h1' : (r.event_id == i) = false := by simpa using h1
      simp only [h1', Bool.false_eq_true, if_false, Bool.false_or]

theorem markAllFailed_records (msg : String) (now : Int) (ids : List String) (db : DB) :
    (markAllFailed msg now ids db).records
      = db.records.map (fun r => if ids.contains r.event_id then setFailed msg now r else r) := by
  induction ids generalizing db with
  | nil =>
    show db.records = _
    exact (map_if_no_match (fun r => ([] : List String).contains r.event_id)
      (setFailed msg now) db.records (fun x _ => rfl)).symm
  | cons i is ih =>
    show (markAllFailed msg now is (markAsFailed db i msg now).1).records = _
    rw [ih, markAsFailed_records, List.map_map]
    refine List.map_congr_left fun r _ => ?_
    simp only [Function.comp_apply, List.contains_cons]
    by_cases h1 : r.event_id == i
    · simp only [h1, if_true, setFailed_event_id, Bool.true_or]
      by_cases h2 : is.contains r.event_id
      · rw [if_pos h2, setFailed_idem]
      · rw [if_neg h2]
    · have h1' : (r.event_id == i) = false := by simpa using h1
      simp only [h1', Bool.false_eq_true, if_false, Bool.false_or]

theorem markAllUploaded_logs (res : String) (now : Int) (ids : List String) (db : DB) :
    (markAllUploaded res now ids db).logs = db.logs := by
  induction ids generalizing db with
  | nil => rfl
  | cons i is ih =>
    show (markAllUploaded res now is (markAsUploaded db i res now).1).logs = _
    rw [ih, markAsUploaded_logs]

theorem markAllFailed_logs (msg : String) (now : Int) (ids : List String) (db : DB) :
    (markAllFailed msg now ids db).logs = db.logs := by
  induction ids generalizing db with
  | nil => rfl
  | cons i is ih =>
    show (markAllFailed msg now is (markAsFailed db i msg now).1).logs = _
    rw [ih]
    rfl

theorem applyOutcome_event_id (result : Option LarkDict) (now : Int) (r : TrackedRecord) :
    (applyOutcome result now r).event_id = r.event_id := by
  unfold applyOutcome
  split <;> rfl

theorem applyChunks_event_id (transport : Nat → List BitableRecord → Option LarkDict)
    (now : Int) (cs : List (List TrackedRecord)) (k : Nat) (r : TrackedRecord) :
    (applyChunks transport now cs k r).event_id = r.event_id := by
  induction cs generalizing k r with
  | nil => rfl
  | cons c cs ih =>
    show (applyChunks transport now cs (k + 1) _).event_id = _
    rw [ih]
    split
    · exact applyOutcome_event_id _ _ _
    · rfl

theorem applyChunks_cons (transport : Nat → List BitableRecord → Option LarkDict)
    (now : Int) (c : List TrackedRecord) (cs : List (List TrackedRecord)) (k : Nat)
    (r : TrackedRecord) :
    applyChunks transport now (c :: cs) k r
      = applyChunks transport now cs (k + 1)
          (if (c.map (fun x => x.event_id)).contains r.event_id then
            applyOutcome (transport k (c.map toUploadRecord)) now r
          else r) := rfl

theorem runChunks_records (transport : Nat → List BitableRecord → Option LarkDict)
    (now : Int) (cs : List (List TrackedRecord)) (k : Nat) (db : DB) :
    (runChunks transport now cs k db).1.records
      = db.records.map (applyChunks transport now cs k) := by
  induction cs generalizing k db with
  | nil =>
    show db.records = _
    exact (List.map_id' db.records).symm
  | cons c cs ih =>
    show (runChunks transport now (c :: cs) k db).1.records = _
    unfold runChunks
    by_cases hs : resultSuccess (transport k (c.map toUploadRecord)) = true
    · rw [if_pos hs]
      show (runChunks transport now cs (k + 1) _).1.records = _
      rw [ih, markAllUploaded_records, List.map_map]
      refine List.map_congr_left fun r _ => ?_
      rw [applyChunks_cons]
      show applyChunks transport now cs (k + 1) _ = applyChunks transport now cs (k + 1) _
      congr 1
      unfold applyOutcome
      rw [if_pos hs]
    · rw [if_neg hs]
      show (runChunks transport now cs (k + 1) _).1.records = _
      rw [ih, markAllFailed_records, List.map_map]
      refine List.map_congr_left fun r _ => ?_
      rw [applyChunks_cons]
      show applyChunks transport now cs (k + 1) _ = applyChunks transport now cs (k + 1) _
      congr 1
      unfold applyOutcome
      rw [if_neg hs]

theorem runChunks_logs (transport : Nat → List BitableRecord → Option LarkDict)
    (now : Int) (cs : List (List TrackedRecord)) (k : Nat) (db : DB) :
    (runChunks transport now cs k db).1.logs = db.logs := by
  induction cs generalizing k db with
  | nil => rfl
  | cons c cs ih =>
    show (runChunks transport now (c :: cs) k db).1.logs = db.logs
    unfold runChunks
    by_cases hs : resultSuccess (transport k (c.map toUploadRecord)) = true
    · rw [if_pos hs]
      show (runChunks transport now cs (k + 1) _).1.logs = _
      rw [ih, markAllUploaded_logs]
    · rw [if_neg hs]
      show (runChunks transport now cs (k + 1) _).1.logs = _
      rw [ih, markAllFailed_logs]

/-- `find?` over a map by an `event_id`-preserving function. -/
theorem find?_map_preserving (f : TrackedRecord → TrackedRecord)
    (hf : ∀ r, (f r).event_id = r.event_id) (i : String) (l : List TrackedRecord) :
    (l.map f).find? (fun r => r.event_id == i) = (l.find? (fun r => r.event_id == i)).map f := by
  induction l with
  | nil => rfl
  | cons a t ih =>
    rw [List.map_cons, List.find?_cons, List.find?_cons]
    show (match (f a).event_id == i with
          | true => some (f a)
          | false => (t.map f).find? fun r => r.event_id == i)
        = Option.map f (match a.event_id == i with
          | true => some a
          | false => t.find? fun r => r.event_id == i)
    rw [hf a]
    by_cases h : a.event_id == i
    · rw [h]
      rfl
    · have h' : (a.event_id == i) = false := by simpa using h
      rw [h']
      exact ih

/-- With distinct `event_id`s, `find?` by a member's `event_id` returns that
member. -/
theorem find?_eq_self_of_nodup (l : List TrackedRecord)
    (hnd : (l.map (fun r => r.event_id)).Nodup) (r : TrackedRecord) (hr : r ∈ l) :
    l.find? (fun x => x.event_id == r.event_id) = some r := by
  induction l with
  | nil => cases hr
  | cons a t ih =>
    rw [List.map_cons, List.nodup_cons] at hnd
    rcases List.mem_cons.mp hr with rfl | hrt
    · exact List.find?_cons_of_pos _ (by simp)
    · have hne : (a.event_id == r.event_id) = false := by
        simp only [beq_eq_false_iff_ne, ne_eq]
        intro hcontra
        exact hnd.1 (hcontra ▸ List.mem_map_of_mem (fun x => x.event_id) hrt)
      rw [List.find?_cons_of_neg _ (by simp [hne])]
      exact ih hnd.2 hrt

theorem addOrUpdate_falsy_id (tz now : Int) (db : DB) (e : EventData)
    (p f : String) (hid : e.event_id = none ∨ e.event_id = some "") :
    addOrUpdateRecord tz now db e p f = (db, false) := by
  unfold addOrUpdateRecord
  rcases hid with hid | hid <;> rw [hid]
  simp

theorem addOrUpdate_found_same (tz now : Int) (db : DB) (e : EventData)
    (p f i : String) (r : TrackedRecord) (hid : e.event_id = some i) (hne : i ≠ "")
    (hfind : db.records.find? (fun r0 => r0.event_id == i) = some r)
    (hh : r.record_hash = generateRecordHash e) :
    addOrUpdateRecord tz now db e p f = (db, false) := by
  unfold addOrUpdateRecord
  rw [hid]
  show (if i = "" then (db, false) else _) = _
  rw [if_neg hne, hfind]
  show (if r.record_hash = generateRecordHash e then (db, false) else _) = _
  rw [if_pos hh]

theorem addOrUpdate_found_diff (tz now : Int) (db : DB) (e : EventData)
    (p f i : String) (r : TrackedRecord) (hid : e.event_id = some i) (hne : i ≠ "")
    (hfind : db.records.find? (fun r0 => r0.event_id == i) = some r)
    (hh : r.record_hash ≠ generateRecordHash e) :
    addOrUpdateRecord tz now db e p f
      = ({ db with records := db.records.map (fun r0 =>
            if r0.event_id == i then resetRowFromEvent tz now e f r0 else r0) },
         true) := by
  unfold addOrUpdateRecord
  rw [hid]
  show (if i = "" then (db, false) else _) = _
  rw [if_neg hne, hfind]
  show (if r.record_hash = generateRecordHash e then (db, false) else _) = _
  rw [if_neg hh]

theorem addOrUpdate_insert (tz now : Int) (db : DB) (e : EventData)
    (p f i : String) (hid : e.event_id = some i) (hne : i ≠ "")
    (hfind : db.records.find? (fun r0 => r0.event_id == i) = none) :
    addOrUpdateRecord tz now db e p f
      = ({ db with records := db.records ++ [newRowFromEvent tz now e p f i] }, true) := by
  unfold addOrUpdateRecord
  rw [hid]
  show (if i = "" then (db, false) else _) = _
  rw [if_neg hne, hfind]

theorem resetRowFromEvent_event_id (tz now : Int) (e : EventData) (f : String)
    (r0 : TrackedRecord) : (resetRowFromEvent tz now e f r0).event_id = r0.event_id := rfl

/-- After any call of `add_or_update_record`, the first row found for the
event's identifier carries the event's current fingerprint (provided the
identifier is truthy). -/
theorem addOrUpdate_find_after (tz now : Int) (db : DB) (e : EventData)
    (p f i : String) (hid : e.event_id = some i) (hne : i ≠ "") :
    ∃ r', (addOrUpdateRecord tz now db e p f).1.records.find? (fun r0 => r0.event_id == i)
        = some r' ∧ r'.record_hash = generateRecordHash e := by
  rcases hfind : db.records.find? (fun r0 => r0.event_id == i) with _ | r
  · rw [addOrUpdate_insert tz now db e p f i hid hne hfind]
    refine ⟨newRowFromEvent tz now e p f i, ?_, rfl⟩
    show (db.records ++ [newRowFromEvent tz now e p f i]).find? (fun r0 => r0.event_id == i)
        = _
    rw [List.find?_append, hfind]
    show ([newRowFromEvent tz now e p f i].find? fun r0 => r0.event_id == i) = _
    rw [List.find?_cons, show ((newRowFromEvent tz now e p f i).event_id == i) = true by simp [newRowFromEvent]]
  · by_cases hh : r.record_hash = generateRecordHash e
    · rw [addOrUpdate_found_same tz now db e p f i r hid hne hfind hh]
      exact ⟨r, hfind, hh⟩
    · rw [addOrUpdate_found_diff tz now db e p f i r hid hne hfind hh]
      have hpres : ∀ r0 : TrackedRecord,
          ((fun r1 => if r1.event_id == i then resetRowFromEvent tz now e f r1 else r1) r0).event_id
            = r0.event_id := by
        intro r0
        show (if r0.event_id == i then resetRowFromEvent tz now e f r0 else r0).event_id
            = r0.event_id
        by_cases hr0 : (r0.event_id == i) = true
        · rw [if_pos hr0, resetRowFromEvent_event_id]
        · rw [if_neg hr0]
      refine ⟨resetRowFromEvent tz now e f r, ?_, rfl⟩
      show (db.records.map fun r1 => if r1.event_id == i then resetRowFromEvent tz now e f r1 else r1).find?
          (fun r0 => r0.event_id == i) = _
      rw [find?_map_preserving _ hpres, hfind]
      have hri : (r.event_id == i) = true := by simpa using List.find?_some hfind
      show some (if r.event_id == i then resetRowFromEvent tz now e f r else r) = _
      rw [if_pos hri]

/-- Identifiers present after `add_or_update_record`: either already present,
or the processed event's own identifier. -/
theorem addOrUpdate_ids (tz now : Int) (db : DB) (e : EventData) (p f : String)
    (id : String)
    (hmem : id ∈ (addOrUpdateRecord tz now db e p f).1.records.map (fun r => r.event_id)) :
    id ∈ db.records.map (fun r => r.event_id) ∨ e.event_id = some id := by
  rcases hid : e.event_id with _ | i
  · rw [addOrUpdate_falsy_id tz now db e p f (Or.inl hid)] at hmem
    exact Or.inl hmem
  · by_cases hne : i = ""
    · rw [addOrUpdate_falsy_id tz now db e p f (Or.inr (hne ▸ hid))] at hmem
      exact Or.inl hmem
    · rcases hfind : db.records.find? (fun r0 => r0.event_id == i) with _ | r
      · rw [addOrUpdate_insert tz now db e p f i hid hne hfind] at hmem
        simp only [List.map_append, List.mem_append] at hmem
        rcases hmem with hmem | hmem
        · exact Or.inl hmem
        · refine Or.inr ?_
          simp only [List.map_cons, List.map_nil, List.mem_singleton] at hmem
          rw [hmem]
          rfl
      · by_cases hh : r.record_hash = generateRecordHash e
        · rw [addOrUpdate_found_same tz now db e p f i r hid hne hfind hh] at hmem
          exact Or.inl hmem
        · rw [addOrUpdate_found_diff tz now db e p f i r hid hne hfind hh] at hmem
          refine Or.inl ?_
          simp only [List.map_map] at hmem
          rcases List.mem_map.mp hmem with ⟨r0, hr0, hr0e⟩
          refine List.mem_map.mpr ⟨r0, hr0, ?_⟩
          by_cases hr0i : r0.event_id == i
          · simpa [Function.comp, hr0i, resetRowFromEvent_event_id] using hr0e
          · simpa [Function.comp, hr0i] using hr0e

theorem getPending_no_limit (db : DB) (person : Option String) :
    getPendingRecords db person none
      = List.insertionSort ctLE (db.records.filter (pendingPred person)) := rfl

theorem getPending_limit (db : DB) (person : Option String) (n : Nat) (hn : n ≠ 0) :
    getPendingRecords db person (some n) = (getPendingRecords db person none).take n := by
  show (if n = 0 then List.insertionSort ctLE (db.records.filter (pendingPred person))
        else (List.insertionSort ctLE (db.records.filter (pendingPred person))).take n)
      = (List.insertionSort ctLE (db.records.filter (pendingPred person))).take n
  rw [if_neg hn]

theorem getPending_limit_zero (db : DB) (person : Option String) :
    getPendingRecords db person (some 0) = getPendingRecords db person none := by
  show (if 0 = 0 then List.insertionSort ctLE (db.records.filter (pendingPred person))
        else (List.insertionSort ctLE (db.records.filter (pendingPred person))).take 0)
      = List.insertionSort ctLE (db.records.filter (pendingPred person))
  rw [if_pos rfl]

theorem getPending_perm (db : DB) (person : Option String) :
    (getPendingRecords db person none).Perm (db.records.filter (pendingPred person)) :=
  List.perm_insertionSort ctLE _

theorem getPending_sorted (db : DB) (person : Option String) (limit : Option Nat) :
    (getPendingRecords db person limit).Sorted ctLE := by
  cases limit with
  | none => exact List.sorted_insertionSort ctLE _
  | some n =>
    by_cases hn : n = 0
    · subst hn
      rw [getPending_limit_zero]
      exact List.sorted_insertionSort ctLE _
    · rw [getPending_limit db person n hn]
      exact List.Pairwise.sublist (List.take_sublist _ _) (List.sorted_insertionSort ctLE _)

theorem getPending_mem_iff (db : DB) (person : Option String) (r : TrackedRecord) :
    r ∈ getPendingRecords db person none ↔ r ∈ db.records ∧ pendingPred person r = true := by
  rw [(getPending_perm db person).mem_iff, List.mem_filter]

theorem getPending_status (db : DB) (person : Option String) (limit : Option Nat)
    (r : TrackedRecord) (hr : r ∈ getPendingRecords db person limit) :
    r.upload_status = "pending" := by
  have hr' : r ∈ getPendingRecords db person none := by
    cases limit with
    | none => exact hr
    | some n =>
      by_cases hn : n = 0
      · subst hn
        rwa [getPending_limit_zero] at hr
      · rw [getPending_limit db person n hn] at hr
        exact (List.take_sublist n _).subset hr
  have hp := ((getPending_mem_iff db person r).mp hr').2
  unfold pendingPred at hp
  simp only [Bool.and_eq_true, beq_iff_eq] at hp
  exact hp.1

/-- Every identifier appearing in the store after the per-file event loop was
already present or belongs to a processed (non-cancelled) event of the
file. -/
theorem loadEvents_ids (tz now : Int) (p f : String) :
    ∀ (es : List EventData) (db : DB) (n : Nat) (id : String),
      id ∈ (loadEvents tz now p f es (db, n)).1.records.map (fun r => r.event_id) →
      id ∈ db.records.map (fun r => r.event_id)
        ∨ ∃ e ∈ es, e.event_id = some id ∧ ¬e.status = some "cancelled" := by
  intro es
  induction es with
  | nil => exact fun db n id h => Or.inl h
  | cons e es ih =>
    intro db n id hmem
    have hstep0 : loadEvents tz now p f (e :: es) (db, n)
        = if (e.status == some "cancelled") = true then loadEvents tz now p f es (db, n)
          else loadEvents tz now p f es
              ((addOrUpdateRecord tz now db e p f).1,
               n + if (addOrUpdateRecord tz now db e p f).2 then 1 else 0) := rfl
    by_cases hc : (e.status == some "cancelled") = true
    · rw [hstep0, if_pos hc] at hmem
      rcases ih db n id hmem with h | ⟨e', he', h1, h2⟩
      · exact Or.inl h
      · exact Or.inr ⟨e', List.mem_cons_of_mem e he', h1, h2⟩
    · rw [hstep0, if_neg hc] at hmem
      rcases ih _ _ id hmem with h | ⟨e', he', h1, h2⟩
      · rcases addOrUpdate_ids tz now db e p f id h with h' | h'
        · exact Or.inl h'
        · exact Or.inr ⟨e, List.mem_cons_self e es, h', by simpa using hc⟩
      · exact Or.inr ⟨e', List.mem_cons_of_mem e he', h1, h2⟩

/-- Every identifier appearing in the store after a full ingest pass was
already present or originates from a non-cancelled event of one of the
files. -/
theorem loadCalendarRecords_ids (tz now : Int) :
    ∀ (files : List (String × String × List EventData)) (db : DB) (id : String),
      id ∈ (loadCalendarRecords tz now db files).1.records.map (fun r => r.event_id) →
      id ∈ db.records.map (fun r => r.event_id)
        ∨ ∃ fl ∈ files, ∃ e ∈ fl.2.2, e.event_id = some id ∧ ¬e.status = some "cancelled" := by
  intro files
  induction files with
  | nil => exact fun db id h => Or.inl h
  | cons fl rest ih =>
    intro db id hmem
    have hstep : loadCalendarRecords tz now db (fl :: rest)
        = (let step := loadEvents tz now fl.1 fl.2.1 fl.2.2 (db, 0)
           let rec2 := loadCalendarRecords tz now step.1 rest
           (rec2.1, step.2 + rec2.2)) := rfl
    rw [hstep] at hmem
    rcases ih _ id hmem with h | ⟨fl', hfl', e', he', h1, h2⟩
    · rcases loadEvents_ids tz now fl.1 fl.2.1 fl.2.2 db 0 id h with h' | ⟨e', he', h1, h2⟩
      · exact Or.inl h'
      · exact Or.inr ⟨fl, List.mem_cons_self fl rest, e', he', h1, h2⟩
    · exact Or.inr ⟨fl', List.mem_cons_of_mem fl hfl', e', he', h1, h2⟩

/-- Every event kept by the fetcher's filter is a non-cancelled source event
with a non-blank summary. -/
theorem filterCalendarEvents_mem (fs : Int) :
    ∀ (evs evs' : List EventData), filterCalendarEvents fs evs = some evs' →
      ∀ e ∈ evs', ¬e.status = some "cancelled" ∧ pyStrip (e.summary.getD "") ≠ "" ∧ e ∈ evs := by
  intro evs
  induction evs with
  | nil =>
    intro evs' h e he
    cases h
    cases he
  | cons a es ih =>
    intro evs' h e he
    have hstep : filterCalendarEvents fs (a :: es)
        = if (a.status == some "cancelled") = true then filterCalendarEvents fs es
          else if pyStrip (a.summary.getD "") = "" then filterCalendarEvents fs es
          else
            match pyInt (a.start_time.timestamp.getD "0") with
            | none => none
            | some ts =>
              if ts < fs then filterCalendarEvents fs es
              else (filterCalendarEvents fs es).map (fun l => a :: l) := rfl
    rw [hstep] at h
    by_cases hc : (a.status == some "cancelled") = true
    · rw [if_pos hc] at h
      rcases ih evs' h e he with ⟨h1, h2, h3⟩
      exact ⟨h1, h2, List.mem_cons_of_mem a h3⟩
    · rw [if_neg hc] at h
      by_cases hs : pyStrip (a.summary.getD "") = ""
      · rw [if_pos hs] at h
        rcases ih evs' h e he with ⟨h1, h2, h3⟩
        exact ⟨h1, h2, List.mem_cons_of_mem a h3⟩
      · rw [if_neg hs] at h
        rcases hp : pyInt (a.start_time.timestamp.getD "0") with _ | ts
        · rw [hp] at h
          cases h
        · rw [hp] at h
          have h' : (if ts < fs then filterCalendarEvents fs es
              else (filterCalendarEvents fs es).map (fun l => a :: l)) = some evs' := h
          by_cases ht : ts < fs
          · rw [if_pos ht] at h'
            rcases ih evs' h' e he with ⟨h1, h2, h3⟩
            exact ⟨h1, h2, List.mem_cons_of_mem a h3⟩
          · rw [if_neg ht] at h'
            rcases Option.map_eq_some'.mp h' with ⟨l', hl', hcons⟩
            subst hcons
            rcases List.mem_cons.mp he with rfl | he'
            · exact ⟨by simpa using hc, hs, List.mem_cons_self _ es⟩
            · rcases ih l' hl' e he' with ⟨h1, h2, h3⟩
              exact ⟨h1, h2, List.mem_cons_of_mem a h3⟩

theorem chunksOf_nil (bs : Nat) : chunksOf bs [] = [] := by
  unfold chunksOf
  split <;> rfl

theorem applyChunks_not_mem (transport : Nat → List BitableRecord → Option LarkDict)
    (now : Int) :
    ∀ (cs : List (List TrackedRecord)) (k : Nat) (r : TrackedRecord),
      r.event_id ∉ cs.flatten.map (fun x => x.event_id) →
      applyChunks transport now cs k r = r := by
  intro cs
  induction cs with
  | nil =>
    intro k r _
    rfl
  | cons c cs ih =>
    intro k r hnot
    rw [applyChunks_cons]
    simp only [List.flatten_cons, List.map_append, List.mem_append] at hnot
    push_neg at hnot
    have hc : ((c.map (fun x => x.event_id)).contains r.event_id) = false := by
      simpa using hnot.1
    rw [hc, if_neg Bool.false_ne_true]
    exact ih (k + 1) r hnot.2

theorem applyChunks_at (transport : Nat → List BitableRecord → Option LarkDict) (now : Int) :
    ∀ (cs : List (List TrackedRecord)) (k j : Nat) (hj : j < cs.length) (r : TrackedRecord),
      r ∈ cs.get ⟨j, hj⟩ →
      (cs.flatten.map (fun x => x.event_id)).Nodup →
      applyChunks transport now cs k r
        = applyOutcome (transport (k + j) ((cs.get ⟨j, hj⟩).map toUploadRecord)) now r := by
  intro cs
  induction cs with
  | nil =>
    intro k j hj
    exact absurd hj (by simp)
  | cons c cs ih =>
    intro k j hj r hr hnd
    simp only [List.flatten_cons, List.map_append] at hnd
    rw [List.nodup_append] at hnd
    cases j with
    | zero =>
      have hrc : r ∈ c := hr
      have hcontains : ((c.map (fun x => x.event_id)).contains r.event_id) = true := by
        simpa using List.mem_map_of_mem (fun x => x.event_id) hrc
      rw [applyChunks_cons, hcontains, if_pos rfl]
      have hid : (applyOutcome (transport k (c.map toUploadRecord)) now r).event_id
          = r.event_id := applyOutcome_event_id _ _ _
      have hnotin : (applyOutcome (transport k (c.map toUploadRecord)) now r).event_id
          ∉ cs.flatten.map (fun x => x.event_id) := by
        rw [hid]
        exact fun hmem => hnd.2.2 (List.mem_map_of_mem (fun x => x.event_id) hrc) hmem
      rw [applyChunks_not_mem transport now cs (k + 1) _ hnotin, Nat.add_zero]
      rfl
    | succ j' =>
      have hj' : j' < cs.length := Nat.lt_of_succ_lt_succ hj
      have hr' : r ∈ cs.get ⟨j', hj'⟩ := hr
      have hrflat : r.event_id ∈ cs.flatten.map (fun x => x.event_id) :=
        List.mem_map_of_mem (fun x => x.event_id)
          (List.mem_flatten.mpr ⟨cs.get ⟨j', hj'⟩, List.get_mem cs j' hj', hr'⟩)
      have hc : ((c.map (fun x => x.event_id)).contains r.event_id) = false := by
        simpa using fun hmem => hnd.2.2 hmem hrflat
      rw [applyChunks_cons, hc, if_neg Bool.false_ne_true]
      rw [ih (k + 1) j' hj' r hr' hnd.2.1]
      rw [show k + 1 + j' = k + (j' + 1) from by omega]
      rfl

/-! ### Claims -/

/-- C9: `mark_as_uploaded` enforces no status precondition.  For every
`event_id` present in the store — whatever the current status of its rows,
including already-`uploaded` ones — the call returns `true` and overwrites
`upload_status`, `upload_time`, `upload_result` and `updated_time` with fresh
values on every matching row, leaving other rows untouched; it returns
`false`, with the store unchanged, exactly when no row with that `event_id`
exists. -/
theorem c9_mark_as_uploaded_no_precondition (db : DB) (i res : String) (now : Int) :
    ((∃ r ∈ db.records, r.event_id = i) →
        (markAsUploaded db i res now).2 = true
        ∧ (∀ r', r' ∈ (markAsUploaded db i res now).1.records → r'.event_id = i →
            r'.upload_status = "uploaded" ∧ r'.upload_time = some now
              ∧ r'.upload_result = some res ∧ r'.updated_time = now)
        ∧ (∀ r', r' ∈ (markAsUploaded db i res now).1.records → r'.event_id ≠ i →
            r' ∈ db.records))
    ∧ ((¬∃ r ∈ db.records, r.event_id = i) → markAsUploaded db i res now = (db, false)) := by
  constructor
  · rintro ⟨r, hr, hre⟩
    have hany : db.records.any (fun r0 => r0.event_id == i) = true :=
      List.any_eq_true.mpr ⟨r, hr, beq_iff_eq.mpr hre⟩
    refine ⟨?_, ?_, ?_⟩
    · unfold markAsUploaded
      rw [if_pos hany]
    · intro r' hr' hre'
      rw [markAsUploaded_records] at hr'
      rcases List.mem_map.mp hr' with ⟨r0, hr0, hr0e⟩
      by_cases h0 : (r0.event_id == i) = true
      · rw [if_pos h0] at hr0e
        subst hr0e
        exact ⟨rfl, rfl, rfl, rfl⟩
      · rw [if_neg h0] at hr0e
        subst hr0e
        exact absurd (beq_iff_eq.mpr hre') h0
    · intro r' hr' hre'
      rw [markAsUploaded_records] at hr'
      rcases List.mem_map.mp hr' with ⟨r0, hr0, hr0e⟩
      by_cases h0 : (r0.event_id == i) = true
      · rw [if_pos h0] at hr0e
        subst hr0e
        exact absurd (beq_iff_eq.mp h0) hre'
      · rw [if_neg h0] at hr0e
        subst hr0e
        exact hr0
  · intro hnone
    have hany : db.records.any (fun r0 => r0.event_id == i) = false := by
      refine List.any_eq_false.mpr fun r hr => ?_
      intro he
      exact hnone ⟨r, hr, beq_iff_eq.mp he⟩
    unfold markAsUploaded
    rw [if_neg (by simp [hany])]

/-- Witness for C9 at a concrete store: `e0` exists in `dbSmall`, so the call
succeeds and rewrites the matching row. -/
theorem c9_witness :
    (markAsUploaded dbSmall "e0" "ok" 9).2 = true
    ∧ (∀ r', r' ∈ (markAsUploaded dbSmall "e0" "ok" 9).1.records → r'.event_id = "e0" →
        r'.upload_status = "uploaded" ∧ r'.upload_time = some 9
          ∧ r'.upload_result = some "ok" ∧ r'.updated_time = 9)
    ∧ (∀ r', r' ∈ (markAsUploaded dbSmall "e0" "ok" 9).1.records → r'.event_id ≠ "e0" →
        r' ∈ dbSmall.records) :=
  (c9_mark_as_uploaded_no_precondition dbSmall "e0" "ok" 9).1 (by decide)

/-- C10: an event whose `event_id` is absent or empty is rejected by
`add_or_update_record` with result `false` and both tables untouched, and the
same `false` is returned for an unchanged existing record, so the boolean does
not distinguish a rejected input from a no-op. -/
theorem c10_falsy_event_id_rejected (tz now : Int) (db : DB) (e : EventData) (p f : String) :
    ((e.event_id = none ∨ e.event_id = some "") →
        addOrUpdateRecord tz now db e p f = (db, false))
    ∧ (∀ i r, e.event_id = some i → i ≠ "" →
        db.records.find? (fun r0 => r0.event_id == i) = some r →
        r.record_hash = generateRecordHash e →
        addOrUpdateRecord tz now db e p f = (db, false)) :=
  ⟨fun h => addOrUpdate_falsy_id tz now db e p f h,
   fun i r hid hne hf hh => addOrUpdate_found_same tz now db e p f i r hid hne hf hh⟩

/-- Witness for C10: both the missing and the empty identifier are rejected
without touching the concrete store, and an unchanged re-ingest of `evA`
returns the same `false`. -/
theorem c10_witness :
    addOrUpdateRecord 0 5 dbA evNoId "p" "f" = (dbA, false)
    ∧ addOrUpdateRecord 0 5 dbA evEmptyId "p" "f" = (dbA, false)
    ∧ addOrUpdateRecord 0 5 dbA evA "p" "f" = (dbA, false) :=
  ⟨(c10_falsy_event_id_rejected 0 5 dbA evNoId "p" "f").1 (Or.inl (by decide)),
   (c10_falsy_event_id_rejected 0 5 dbA evEmptyId "p" "f").1 (Or.inr (by decide)),
   (c10_falsy_event_id_rejected 0 5 dbA evA "p" "f").2 "ev1" rowA (by decide) (by decide)
     (by decide) (by decide)⟩

/-- C3: upsert is idempotent.  After any `add_or_update_record` call for an
event with a truthy identifier, repeating the call with the unchanged event —
even at a different time, local timezone, owner or file path — reports `false`
(`Unchanged`) and returns the store exactly as it was, so `upload_status`,
`updated_time`, `upload_time` and `upload_result` keep their values. -/
theorem c3_upsert_idempotent (tz now tz2 now2 : Int) (db : DB) (e : EventData)
    (p f p2 f2 i : String) (hid : e.event_id = some i) (hne : i ≠ "") :
    addOrUpdateRecord tz2 now2 (addOrUpdateRecord tz now db e p f).1 e p2 f2
      = ((addOrUpdateRecord tz now db e p f).1, false) := by
  rcases addOrUpdate_find_after tz now db e p f i hid hne with ⟨r', hfind, hh⟩
  exact addOrUpdate_found_same tz2 now2 _ e p2 f2 i r' hid hne hfind hh

/-- Witness for C3: inserting `evA` into the empty store and upserting it
again is a no-op reporting `false`. -/
theorem c3_witness :
    addOrUpdateRecord 1 9 (addOrUpdateRecord 0 5 emptyDB evA "alice" "a.txt").1 evA "bob" "b.txt"
      = ((addOrUpdateRecord 0 5 emptyDB evA "alice" "a.txt").1, false) :=
  c3_upsert_idempotent 0 5 1 9 emptyDB evA "alice" "a.txt" "bob" "b.txt" "ev1"
    (by decide) (by decide)

/-- C2: change detection.  For a stored row found under the event's truthy
identifier (in particular one with status `uploaded`): when the stored
fingerprint differs from the event's, the upsert reports `true` and every row
under that identifier has its mutable fields overwritten, its status reset to
`pending` and `upload_time`/`upload_result` cleared, while other rows are
untouched; when the fingerprint is identical, the store is returned unchanged
with `false` — in particular an `uploaded` row is never reset to `pending`. -/
theorem c2_change_detection (tz now : Int) (db : DB) (e : EventData) (p f i : String)
    (r : TrackedRecord) (hid : e.event_id = some i) (hne : i ≠ "")
    (hfind : db.records.find? (fun r0 => r0.event_id == i) = some r) :
    (r.record_hash ≠ generateRecordHash e →
        (addOrUpdateRecord tz now db e p f).2 = true
        ∧ (∀ r', r' ∈ (addOrUpdateRecord tz now db e p f).1.records → r'.event_id = i →
            r'.upload_status = "pending" ∧ r'.upload_time = none ∧ r'.upload_result = none
              ∧ r'.summary = e.summary.getD ""
              ∧ r'.start_time = extractTimestamp tz e.start_time
              ∧ r'.end_time = extractTimestamp tz e.end_time
              ∧ r'.calendar_file = f
              ∧ r'.record_hash = generateRecordHash e
              ∧ r'.updated_time = now)
        ∧ (∀ r', r' ∈ (addOrUpdateRecord tz now db e p f).1.records → r'.event_id ≠ i →
            r' ∈ db.records))
    ∧ (r.record_hash = generateRecordHash e →
        addOrUpdateRecord tz now db e p f = (db, false)) := by
  constructor
  · intro hh
    rw [addOrUpdate_found_diff tz now db e p f i r hid hne hfind hh]
    refine ⟨rfl, ?_, ?_⟩
    · intro r' hr' hre'
      rcases List.mem_map.mp hr' with ⟨r0, hr0, hr0e⟩
      by_cases h0 : (r0.event_id == i) = true
      · rw [if_pos h0] at hr0e
        subst hr0e
        exact ⟨rfl, rfl, rfl, rfl, rfl, rfl, rfl, rfl, rfl⟩
      · rw [if_neg h0] at hr0e
        subst hr0e
        exact absurd (beq_iff_eq.mpr hre') h0
    · intro r' hr' hre'
      rcases List.mem_map.mp hr' with ⟨r0, hr0, hr0e⟩
      by_cases h0 : (r0.event_id == i) = true
      · rw [if_pos h0] at hr0e
        subst hr0e
        exact absurd (beq_iff_eq.mp h0) hre'
      · rw [if_neg h0] at hr0e
        subst hr0e
        exact hr0
  · intro hh
    exact addOrUpdate_found_same tz now db e p f i r hid hne hfind hh

/-- Witness for C2: re-ingesting `evA2` (changed summary) over the uploaded
row `rowA` resets it to `pending`, while re-ingesting the unchanged `evA` is a
no-op. -/
theorem c2_witness :
    ((addOrUpdateRecord 0 77 dbA evA2 "alice" "a2.txt").2 = true
      ∧ (∀ r', r' ∈ (addOrUpdateRecord 0 77 dbA evA2 "alice" "a2.txt").1.records →
          r'.event_id = "ev1" →
          r'.upload_status = "pending" ∧ r'.upload_time = none ∧ r'.upload_result = none
            ∧ r'.summary = evA2.summary.getD ""
            ∧ r'.start_time = extractTimestamp 0 evA2.start_time
            ∧ r'.end_time = extractTimestamp 0 evA2.end_time
            ∧ r'.calendar_file = "a2.txt"
            ∧ r'.record_hash = generateRecordHash evA2
            ∧ r'.updated_time = 77)
      ∧ (∀ r', r' ∈ (addOrUpdateRecord 0 77 dbA evA2 "alice" "a2.txt").1.records →
          r'.event_id ≠ "ev1" → r' ∈ dbA.records))
    ∧ addOrUpdateRecord 0 77 dbA evA "alice" "a.txt" = (dbA, false) :=
  ⟨(c2_change_detection 0 77 dbA evA2 "alice" "a2.txt" "ev1" rowA (by decide) (by decide)
      (by decide)).1 (by decide),
   (c2_change_detection 0 77 dbA evA "alice" "a.txt" "ev1" rowA (by decide) (by decide)
      (by decide)).2 (by decide)⟩

/-- C5 (amended): a raw time carrying `timestamp := "1700000000"` resolves to
`1700000000000` ms and one carrying neither `timestamp` nor `date` resolves to
`none`, in both `_extract_timestamp` and `parse_timestamp_to_ms`; but a raw
time carrying `date := "2024-11-07"` resolves to the millisecond epoch of
2024-11-07T00:00:00 in the process's local timezone — the midnight-UTC epoch
minus the local UTC offset — which equals the midnight-UTC value only when
that offset is zero, because the naive `strptime` result is interpreted by
`datetime.timestamp()` in local time. -/
theorem c5_time_resolution (tz : Int) :
    extractTimestamp tz ⟨some "1700000000", none, none⟩ = some 1700000000000
    ∧ parseTimestampToMs tz ⟨some "1700000000", none, none⟩ = some 1700000000000
    ∧ extractTimestamp tz ⟨none, some "2024-11-07", none⟩ = some ((1730937600 - tz) * 1000)
    ∧ parseTimestampToMs tz ⟨none, some "2024-11-07", none⟩ = some ((1730937600 - tz) * 1000)
    ∧ extractTimestamp tz ⟨none, none, none⟩ = none
    ∧ parseTimestampToMs tz ⟨none, none, none⟩ = none :=
  ⟨rfl, rfl, rfl, rfl, rfl, rfl⟩

/-- Counterexample to C5 as stated: in a process whose local offset is UTC+8
(28800 s), the date `2024-11-07` does not resolve to the millisecond epoch of
2024-11-07T00:00:00 UTC — it resolves to `1730908800000`, eight hours
earlier. -/
theorem c5_counterexample :
    extractTimestamp 28800 ⟨none, some "2024-11-07", none⟩ ≠ some 1730937600000
    ∧ extractTimestamp 28800 ⟨none, some "2024-11-07", none⟩ = some 1730908800000
    ∧ parseTimestampToMs 28800 ⟨none, some "2024-11-07", none⟩ ≠ some 1730937600000 := by
  decide

/-- C8: time extraction is total.  Both `_extract_timestamp` and
`parse_timestamp_to_ms` wrap their bodies in a bare `except` returning `None`:
every raised error (`Except.error`) maps to `none`, every normal result is
passed through, and concretely an unparseable `timestamp`, a malformed or
out-of-range `date`, and an input with neither key all yield `none` rather
than an exception. -/
theorem c8_time_extraction_total (tz : Int) (td : TimeDict) :
    (∀ msg, extractTimestampBody tz td = .error msg → extractTimestamp tz td = none)
    ∧ (∀ o, extractTimestampBody tz td = .ok o → extractTimestamp tz td = o)
    ∧ (∀ msg, parseTimestampToMsBody tz td = .error msg → parseTimestampToMs tz td = none)
    ∧ (∀ o, parseTimestampToMsBody tz td = .ok o → parseTimestampToMs tz td = o)
    ∧ extractTimestamp tz ⟨some "abc", none, none⟩ = none
    ∧ extractTimestamp tz ⟨none, some "2024-13-40", none⟩ = none
    ∧ extractTimestamp tz ⟨none, some "not-a-date", none⟩ = none
    ∧ parseTimestampToMs tz ⟨some "12.5", none, none⟩ = none
    ∧ parseTimestampToMs tz ⟨none, some "2024-02-30", some "UTC"⟩ = none := by
  refine ⟨?_, ?_, ?_, ?_, rfl, rfl, rfl, rfl, rfl⟩
  · intro msg h
    unfold extractTimestamp
    rw [h]
  · intro o h
    unfold extractTimestamp
    rw [h]
  · intro msg h
    unfold parseTimestampToMs
    rw [h]
  · intro o h
    unfold parseTimestampToMs
    rw [h]

/-- Witness for C8: the error branch is exercised at the concrete input
`timestamp := "abc"`, whose body raises and whose wrapper returns `none`. -/
theorem c8_witness :
    extractTimestamp 0 ⟨some "abc", none, none⟩ = none :=
  (c8_time_extraction_total 0 ⟨some "abc", none, none⟩).1
    "ValueError: invalid literal for int" rfl

/-- C4: exclusion correctness of the cycle's ingest pipeline.  The fetcher's
filter — which runs before any calendar file is written, and the loader reads
only such files — keeps no cancelled event and no event whose stripped title
is empty; consequently, for files produced by the fetcher, every identifier
newly present in the store after `_load_calendar_records` originates from a
source event that is neither cancelled nor empty/whitespace-titled: a
cancelled or blank-titled raw event never produces a TrackedRecord. -/
theorem c4_exclusion_correctness (tz now fs : Int) :
    (∀ (evs evs' : List EventData), filterCalendarEvents fs evs = some evs' →
        ∀ e ∈ evs', ¬e.status = some "cancelled" ∧ pyStrip (e.summary.getD "") ≠ ""
          ∧ e ∈ evs)
    ∧ (∀ (db : DB) (files : List (String × String × List EventData)) (id : String),
        (∀ fl ∈ files, ∃ raw, filterCalendarEvents fs raw = some fl.2.2) →
        id ∉ db.records.map (fun r => r.event_id) →
        id ∈ (loadCalendarRecords tz now db files).1.records.map (fun r => r.event_id) →
        ∃ fl ∈ files, ∃ e ∈ fl.2.2, e.event_id = some id
          ∧ ¬e.status = some "cancelled" ∧ pyStrip (e.summary.getD "") ≠ "") := by
  constructor
  · exact fun evs evs' h e he => filterCalendarEvents_mem fs evs evs' h e he
  · intro db files id hfetch hnew hmem
    rcases loadCalendarRecords_ids tz now files db id hmem with h | ⟨fl, hfl, e, he, hid, _⟩
    · exact absurd h hnew
    · rcases hfetch fl hfl with ⟨raw, hraw⟩
      rcases filterCalendarEvents_mem fs raw fl.2.2 hraw e he with ⟨h1, h2, _⟩
      exact ⟨fl, hfl, e, he, hid, h1, h2⟩

/-- Witness for C4 at a concrete ingest: a raw source list holding a cancelled
event, a whitespace-titled event and one good event is filtered by the fetcher
down to the good event, whose identifier is the only one the loader can
introduce — and it is traced back to a non-cancelled, non-blank source
event. -/
theorem c4_witness :
    (∀ e ∈ [evGood], ¬e.status = some "cancelled" ∧ pyStrip (e.summary.getD "") ≠ ""
      ∧ e ∈ [evCancelled, evWS, evGood])
    ∧ (∃ fl ∈ [("p", "p.txt", [evGood])], ∃ e ∈ fl.2.2, e.event_id = some "g1"
        ∧ ¬e.status = some "cancelled" ∧ pyStrip (e.summary.getD "") ≠ "") := by
  constructor
  · exact (c4_exclusion_correctness 0 5 0).1 [evCancelled, evWS, evGood] [evGood] (by decide)
  · refine (c4_exclusion_correctness 0 5 0).2 emptyDB [("p", "p.txt", [evGood])] "g1"
      ?_ (by decide) (by decide)
    intro fl hfl
    rw [List.mem_singleton] at hfl
    subst hfl
    exact ⟨[evCancelled, evWS, evGood], by decide⟩

/-- C7 (amended): `log_upload_batch` appends exactly one immutable
`upload_logs` row per result dictionary, tagged with the given batch id
(provided every result carries the `NOT NULL` columns `event_id` and
`status`), and reports `true` — but the orchestrator's upload cycle never
invokes it: `_upload_pending_records` leaves `upload_logs` exactly as it was,
appending no entry for any processed record. -/
theorem c7_cycle_appends_no_log (bs : Nat)
    (transport : Nat → List BitableRecord → Option LarkDict) (now : Int) (db : DB)
    (batchId : String) (results : List UploadResultEntry) (now2 : Int) :
    (uploadPendingRecords bs transport now db).1.logs = db.logs
    ∧ (results.all (fun x => x.event_id.isSome && x.status.isSome) = true →
        (logUploadBatch db batchId results now2).1.logs
            = db.logs ++ results.map (fun x =>
                { batch_id := batchId
                  event_id := x.event_id.getD ""
                  upload_status := x.status.getD ""
                  upload_result := x.result
                  upload_time := now2
                  error_message := x.error })
          ∧ (logUploadBatch db batchId results now2).2 = true) := by
  constructor
  · show (if (getPendingRecords db none none).isEmpty then (db, 0, 0)
          else runChunks transport now (chunksOf bs (getPendingRecords db none none)) 0 db).1.logs
        = db.logs
    by_cases hp : (getPendingRecords db none none).isEmpty = true
    · rw [if_pos hp]
    · rw [if_neg hp]
      exact runChunks_logs transport now _ 0 db
  · intro hall
    unfold logUploadBatch
    rw [if_pos hall]
    exact ⟨rfl, rfl⟩

/-- Witness for C7: a full successful cycle over `db6` leaves the log table
unchanged, while a direct `log_upload_batch` call with one well-formed result
appends exactly one row. -/
theorem c7_witness :
    (uploadPendingRecords 50 trOK 9 db6).1.logs = db6.logs
    ∧ ((logUploadBatch emptyDB "b1" [⟨some "e1", some "uploaded", some "ok", none⟩] 3).1.logs
        = [⟨"b1", "e1", "uploaded", some "ok", 3, none⟩]
      ∧ (logUploadBatch emptyDB "b1" [⟨some "e1", some "uploaded", some "ok", none⟩] 3).2
          = true) :=
  ⟨(c7_cycle_appends_no_log 50 trOK 9 db6 "b" [] 0).1,
   (c7_cycle_appends_no_log 50 trOK 9 emptyDB "b1"
      [⟨some "e1", some "uploaded", some "ok", none⟩] 3).2 (by decide)⟩

/-- Counterexample to C7 as stated: a cycle over `dbSmall` processes five
records (all uploaded), yet appends zero `UploadLogEntry` rows — the
orchestrator never calls `log_upload_batch`. -/
theorem c7_counterexample :
    (uploadPendingRecords 50 trOK 9 dbSmall).2.1 = 5
    ∧ (uploadPendingRecords 50 trOK 9 dbSmall).1.logs.length = 0 := by decide

/-- C6: `get_pending_records` returns exactly the `pending` rows — a `failed`
row is never selected — ordered by `created_time` ascending, optionally
filtered by a non-empty `person_name` and capped by a non-zero `limit` (the
cap is a prefix of the unlimited ordering); `reset_failed_records` turns
exactly the `failed` rows into `pending` rows with `upload_time` and
`upload_result` cleared (returning their count, leaving other rows untouched),
after which each is re-selected by `get_pending_records` and a subsequent
successful transport marking turns it `uploaded`. -/
theorem c6_pending_selection_and_reset (db : DB) (now now2 : Int) (res : String) :
    (∀ person limit r, r ∈ getPendingRecords db person limit → r.upload_status = "pending")
    ∧ (getPendingRecords db none none).Perm
        (db.records.filter (fun r => r.upload_status == "pending"))
    ∧ (∀ person limit, (getPendingRecords db person limit).Sorted ctLE)
    ∧ (∀ p, p ≠ "" → (getPendingRecords db (some p) none).Perm
        (db.records.filter (fun r => r.upload_status == "pending" && r.person_name == p)))
    ∧ (∀ person n, n ≠ 0 →
        getPendingRecords db person (some n) = (getPendingRecords db person none).take n)
    ∧ (resetFailedRecords db now).2 = db.records.countP (fun r => r.upload_status == "failed")
    ∧ (∀ r, r ∈ db.records → r.upload_status = "failed" →
        setPendingCleared now r ∈ (resetFailedRecords db now).1.records
        ∧ setPendingCleared now r ∈ getPendingRecords (resetFailedRecords db now).1 none none
        ∧ (markAsUploaded (resetFailedRecords db now).1 r.event_id res now2).2 = true
        ∧ (∀ r2, r2 ∈ (markAsUploaded (resetFailedRecords db now).1 r.event_id res now2).1.records
            → r2.event_id = r.event_id → r2.upload_status = "uploaded"))
    ∧ (∀ r, r ∈ db.records → ¬r.upload_status = "failed" →
        r ∈ (resetFailedRecords db now).1.records) := by
  have hresetmap : (resetFailedRecords db now).1.records
      = db.records.map (fun r => if r.upload_status == "failed" then
          setPendingCleared now r else r) := rfl
  refine ⟨?_, ?_, ?_, ?_, ?_, rfl, ?_, ?_⟩
  · exact fun person limit r hr => getPending_status db person limit r hr
  · refine (getPending_perm db none).trans (List.Perm.of_eq ?_)
    refine List.filter_congr fun r _ => ?_
    unfold pendingPred
    exact Bool.and_true _
  · exact fun person limit => getPending_sorted db person limit
  · intro p hp
    refine (getPending_perm db (some p)).trans (List.Perm.of_eq ?_)
    refine List.filter_congr fun r _ => ?_
    show (r.upload_status == "pending" && (if p = "" then true else r.person_name == p))
        = (r.upload_status == "pending" && r.person_name == p)
    rw [if_neg hp]
  · exact fun person n hn => getPending_limit db person n hn
  · intro r hr hf
    have hfb : (r.upload_status == "failed") = true := beq_iff_eq.mpr hf
    have hmem : setPendingCleared now r ∈ (resetFailedRecords db now).1.records := by
      rw [hresetmap]
      refine List.mem_map.mpr ⟨r, hr, ?_⟩
      rw [if_pos hfb]
    refine ⟨hmem, ?_, ?_, ?_⟩
    · refine (getPending_mem_iff _ none _).mpr ⟨hmem, ?_⟩
      unfold pendingPred
      rfl
    · have hany : (resetFailedRecords db now).1.records.any
          (fun r0 => r0.event_id == r.event_id) = true :=
        List.any_eq_true.mpr ⟨_, hmem, beq_iff_eq.mpr rfl⟩
      unfold markAsUploaded
      rw [if_pos hany]
    · intro r2 hr2 hr2e
      rw [markAsUploaded_records] at hr2
      rcases List.mem_map.mp hr2 with ⟨r0, hr0, hr0e⟩
      by_cases h0 : (r0.event_id == r.event_id) = true
      · rw [if_pos h0] at hr0e
        subst hr0e
        rfl
      · rw [if_neg h0] at hr0e
        subst hr0e
        exact absurd (beq_iff_eq.mpr hr2e) h0
  · intro r hr hf
    have hfb : (r.upload_status == "failed") = false := by
      simpa using hf
    rw [hresetmap]
    refine List.mem_map.mpr ⟨r, hr, ?_⟩
    rw [hfb]
    rfl

/-- Witness for C6 at the concrete store `db6` (two pending rows created out
of order, one failed, one uploaded): in particular the failed row `f1` is
reset, re-selected and then uploadable. -/
theorem c6_witness :
    (∀ person limit r, r ∈ getPendingRecords db6 person limit → r.upload_status = "pending")
    ∧ (getPendingRecords db6 none none).Perm
        (db6.records.filter (fun r => r.upload_status == "pending"))
    ∧ (∀ person limit, (getPendingRecords db6 person limit).Sorted ctLE)
    ∧ (getPendingRecords db6 (some "alice") none).Perm
        (db6.records.filter (fun r => r.upload_status == "pending" && r.person_name == "alice"))
    ∧ getPendingRecords db6 none (some 1) = (getPendingRecords db6 none none).take 1
    ∧ (resetFailedRecords db6 13).2 = db6.records.countP (fun r => r.upload_status == "failed")
    ∧ setPendingCleared 13 rowF1 ∈ getPendingRecords (resetFailedRecords db6 13).1 none none
    ∧ (markAsUploaded (resetFailedRecords db6 13).1 rowF1.event_id res6 21).2 = true := by
  have h := c6_pending_selection_and_reset db6 13 21 res6
  have hf := h.2.2.2.2.2.2.1 rowF1 (by decide) (by decide)
  exact ⟨h.1, h.2.1, h.2.2.1, h.2.2.2.1 "alice" (by decide),
    h.2.2.2.2.1 none 1 (by decide), h.2.2.2.2.2.1, hf.2.1, hf.2.2.1⟩

/-- C1: batch all-or-nothing.  With a positive batch size and unique row
identifiers (the store's `UNIQUE` constraint), the cycle partitions the
pending selection in order into consecutive nonempty chunks of at most
`batch_size` records (the configured default being 50); the `j`-th chunk is
submitted in the cycle's `j`-th (single) transport call, and after the cycle
each record of chunk `j` is found — independently of the other chunks — with
status `uploaded` and the shared result text when that call returned a truthy
response with application code 0, and with status `failed` carrying the
extracted error message on any other outcome. -/
theorem c1_batch_all_or_nothing (bs : Nat)
    (transport : Nat → List BitableRecord → Option LarkDict) (now : Int) (db : DB)
    (hbs : 0 < bs) (hnd : (db.records.map (fun r => r.event_id)).Nodup) :
    (chunksOf bs (getPendingRecords db none none)).flatten = getPendingRecords db none none
    ∧ (∀ c ∈ chunksOf bs (getPendingRecords db none none), c ≠ [] ∧ c.length ≤ bs)
    ∧ scheduleConfigBatchSize = 50
    ∧ (∀ j (hj : j < (chunksOf bs (getPendingRecords db none none)).length) r,
        r ∈ (chunksOf bs (getPendingRecords db none none)).get ⟨j, hj⟩ →
        ∃ r', (uploadPendingRecords bs transport now db).1.records.find?
              (fun x => x.event_id == r.event_id) = some r'
          ∧ r' = applyOutcome (transport j
              (((chunksOf bs (getPendingRecords db none none)).get ⟨j, hj⟩).map toUploadRecord))
              now r
          ∧ (resultSuccess (transport j
                (((chunksOf bs (getPendingRecords db none none)).get ⟨j, hj⟩).map toUploadRecord))
                = true →
              r'.upload_status = "uploaded" ∧ r'.upload_result = some "批量上传成功"
                ∧ r'.upload_time = some now)
          ∧ (resultSuccess (transport j
                (((chunksOf bs (getPendingRecords db none none)).get ⟨j, hj⟩).map toUploadRecord))
                = false →
              r'.upload_status = "failed"
                ∧ r'.upload_result = some ("FAILED: " ++ extractErrorMsg (transport j
                    (((chunksOf bs (getPendingRecords db none none)).get ⟨j, hj⟩).map
                      toUploadRecord)))
                ∧ r'.upload_time = some now)) := by
  refine ⟨chunksOf_flatten bs hbs _, fun c hc => chunksOf_mem bs hbs _ c hc, rfl, ?_⟩
  intro j hj r hr
  by_cases hp : getPendingRecords db none none = []
  · exfalso
    have hlen : (chunksOf bs (getPendingRecords db none none)).length = 0 := by
      rw [hp, chunksOf_nil]
      rfl
    omega
  · have hnot : ¬(getPendingRecords db none none).isEmpty = true :=
      fun h => hp (List.isEmpty_iff.mp h)
    have hrun : (uploadPendingRecords bs transport now db).1.records
        = db.records.map
            (applyChunks transport now (chunksOf bs (getPendingRecords db none none)) 0) := by
      show (if (getPendingRecords db none none).isEmpty then (db, 0, 0)
            else runChunks transport now
              (chunksOf bs (getPendingRecords db none none)) 0 db).1.records = _
      rw [if_neg hnot]
      exact runChunks_records transport now _ 0 db
    have hrp : r ∈ getPendingRecords db none none := by
      have hfl : r ∈ (chunksOf bs (getPendingRecords db none none)).flatten :=
        List.mem_flatten.mpr ⟨_, List.get_mem _ j hj, hr⟩
      rwa [chunksOf_flatten bs hbs] at hfl
    have hrdb : r ∈ db.records := ((getPending_mem_iff db none r).mp hrp).1
    have hndp : ((chunksOf bs (getPendingRecords db none none)).flatten.map
        (fun x => x.event_id)).Nodup := by
      rw [chunksOf_flatten bs hbs]
      have hsub : ((db.records.filter (pendingPred none)).map (fun x => x.event_id)).Sublist
          (db.records.map (fun x => x.event_id)) :=
        (List.filter_sublist db.records).map (fun x => x.event_id)
      exact ((getPending_perm db none).map (fun x => x.event_id)).symm.nodup
        (hnd.sublist hsub)
    have happ := applyChunks_at transport now (chunksOf bs (getPendingRecords db none none))
      0 j hj r hr hndp
    rw [Nat.zero_add] at happ
    have hfind : (uploadPendingRecords bs transport now db).1.records.find?
        (fun x => x.event_id == r.event_id)
        = some (applyChunks transport now (chunksOf bs (getPendingRecords db none none)) 0 r) := by
      rw [hrun, find?_map_preserving _ (fun r0 => applyChunks_event_id transport now _ 0 r0),
        find?_eq_self_of_nodup db.records hnd r hrdb]
      rfl
    refine ⟨_, hfind, happ, ?_, ?_⟩
    · intro hs
      rw [happ]
      unfold applyOutcome
      rw [if_pos hs]
      exact ⟨rfl, rfl, rfl⟩
    · intro hs
      rw [happ]
      unfold applyOutcome
      rw [hs, if_neg Bool.false_ne_true]
      exact ⟨rfl, rfl, rfl⟩

set_option maxRecDepth 10000 in
/-- Witness for C1 at the specification's example: 120 pending records with
batch size 50 yield chunks of sizes 50, 50, 20; with a transport failing only
on the second call, the cycle reports 70 uploaded and 50 failed, and the
per-chunk marking facts hold as stated by the theorem. -/
theorem c1_witness :
    (0 < 50 ∧ (db120.records.map (fun r => r.event_id)).Nodup)
    ∧ ((chunksOf 50 (getPendingRecords db120 none none)).map List.length = [50, 50, 20]
      ∧ (uploadPendingRecords 50 trFail1 99 db120).2 = (70, 50))
    ∧ ((chunksOf 50 (getPendingRecords db120 none none)).flatten
        = getPendingRecords db120 none none
      ∧ (∀ c ∈ chunksOf 50 (getPendingRecords db120 none none), c ≠ [] ∧ c.length ≤ 50)
      ∧ scheduleConfigBatchSize = 50
      ∧ (∀ j (hj : j < (chunksOf 50 (getPendingRecords db120 none none)).length) r,
          r ∈ (chunksOf 50 (getPendingRecords db120 none none)).get ⟨j, hj⟩ →
          ∃ r', (uploadPendingRecords 50 trFail1 99 db120).1.records.find?
                (fun x => x.event_id == r.event_id) = some r'
            ∧ r' = applyOutcome (trFail1 j
                (((chunksOf 50 (getPendingRecords db120 none none)).get ⟨j, hj⟩).map
                  toUploadRecord)) 99 r
            ∧ (resultSuccess (trFail1 j
                  (((chunksOf 50 (getPendingRecords db120 none none)).get ⟨j, hj⟩).map
                    toUploadRecord)) = true →
                r'.upload_status = "uploaded" ∧ r'.upload_result = some "批量上传成功"
                  ∧ r'.upload_time = some 99)
            ∧ (resultSuccess (trFail1 j
                  (((chunksOf 50 (getPendingRecords db120 none none)).get ⟨j, hj⟩).map
                    toUploadRecord)) = false →
                r'.upload_status = "failed"
                  ∧ r'.upload_result = some ("FAILED: " ++ extractErrorMsg (trFail1 j
                      (((chunksOf 50 (getPendingRecords db120 none none)).get ⟨j, hj⟩).map
                        toUploadRecord)))
                  ∧ r'.upload_time = some 99))) :=
  ⟨⟨by decide, by decide⟩, ⟨by decide, by decide⟩,
   c1_batch_all_or_nothing 50 trFail1 99 db120 (by decide) (by decide)⟩

end LarkScheduler

